import Mathlib

/-!
Verification of the `typos` word-ladder program.

The Rust sources embedded here:
* `src/distance/path.rs` — the multi-resolution cost vector `PathMultiCost<u8>`
  (fixed array of `MAX_DIMENSION = 20` buckets, index 0 most significant),
  its lexicographic comparison, saturating addition, zero, bounds, and sparse form;
* `src/distance/word.rs` — `path_cost` and `edit_distance` built on the external
  `edit_distance` crate (classic Levenshtein distance, embedded as `lev`);
* `src/distance.rs` — the `Display` rendering of a cost vector and the
  `find_shortest_path` dispatcher over four search algorithms.  The four
  algorithms themselves live in the external `pathfinding` crate and are
  modelled from the spec where a claim needs them.

Machine integers: the scalar is `u8`, embedded as `Nat` with explicit
saturation at 255 and explicit `% 256` where Rust casts with `as u8`;
`usize` subtraction is embedded with wrapping (release) semantics `% 2^64`.
-/

namespace Typos

/-- `pub const MAX_DIMENSION: usize = 20;` from `path.rs`. -/
def MAX_DIMENSION : Nat := 20

/-- `u8::max_value()`, the saturation bound of the cost scalar. -/
def U8_MAX : Nat := 255

/-- `2^64`, the modulus of Rust `usize` arithmetic. -/
def USIZE_MOD : Nat := 18446744073709551616

/-- Rust `usize` subtraction `a - b` under release (wrapping) semantics. -/
def wrapSub (a b : Nat) : Nat := (((a : Int) - (b : Int)) % (USIZE_MOD : Int)).toNat

/-- `PathMultiCost<u8>` from `path.rs`: `data: [U; MAX_DIMENSION]`.
The list has length `MAX_DIMENSION`; index 0 is the most significant bucket.
Each entry is a `u8` value (a `Nat` kept below 256 by the operations). -/
structure PathMultiCost where
  data : List Nat
deriving DecidableEq, Repr

/-- `PathMultiCost::new(cost, dimension)` from `path.rs`:
`data[min(MAX_DIMENSION - 1, MAX_DIMENSION - 1 - dimension)] = cost` on an
all-zero array, the inner subtraction being Rust `usize` arithmetic. -/
def PathMultiCost.new (cost dimension : Nat) : PathMultiCost :=
  ⟨(List.replicate MAX_DIMENSION 0).set
      (min (MAX_DIMENSION - 1) (wrapSub (MAX_DIMENSION - 1) dimension)) cost⟩

/-- `Bounded::min_value()` for `PathMultiCost<u8>`: `new(u8::min_value(), 0)`. -/
def PathMultiCost.min_value : PathMultiCost := PathMultiCost.new 0 0

/-- `Bounded::max_value()` for `PathMultiCost<u8>`:
`new(u8::max_value(), MAX_DIMENSION - 1)`. -/
def PathMultiCost.max_value : PathMultiCost :=
  PathMultiCost.new U8_MAX (MAX_DIMENSION - 1)

/-- `Zero::zero()` for `PathMultiCost<u8>`: `new(0, 0)`, the all-zero vector. -/
def PathMultiCost.zero : PathMultiCost := PathMultiCost.new 0 0

/-- `Zero::is_zero` from `path.rs` (the `rev()` is a pure traversal-order
optimisation and does not change the result). -/
def PathMultiCost.is_zero (x : PathMultiCost) : Bool :=
  x.data.reverse.all (fun v => v == 0)

/-- The loop body of `Ord::cmp` from `path.rs`: walk the two bucket arrays
in parallel from index 0 (most significant) and return the first non-equal
comparison; `zip` stops at the shorter list, in which case the remainder is
never examined (in the program both lists always have length 20). -/
def cmpList : List Nat → List Nat → Ordering
  | [], _ => Ordering.eq
  | _ :: _, [] => Ordering.eq
  | a :: ta, b :: tb =>
    match compare a b with
    | Ordering.eq => cmpList ta tb
    | o => o

/-- `Ord::cmp` for `PathMultiCost<u8>`. -/
def PathMultiCost.cmp (x y : PathMultiCost) : Ordering := cmpList x.data y.data

/-- `x <= y` in the total order of `path.rs` (`cmp` is not `Greater`). -/
def PathMultiCost.le (x y : PathMultiCost) : Prop := x.cmp y ≠ Ordering.gt

/-- `x < y` in the total order of `path.rs` (`cmp` is `Less`). -/
def PathMultiCost.lt (x y : PathMultiCost) : Prop := x.cmp y = Ordering.lt

instance (x y : PathMultiCost) : Decidable (PathMultiCost.le x y) :=
  inferInstanceAs (Decidable (PathMultiCost.cmp x y ≠ Ordering.gt))

instance (x y : PathMultiCost) : Decidable (PathMultiCost.lt x y) :=
  inferInstanceAs (Decidable (PathMultiCost.cmp x y = Ordering.lt))

/-- One bucket of `Add::add` from `path.rs`: `e.checked_add(&a)` with `None`
replaced by `u8::max_value()`, i.e. saturating `u8` addition. -/
def satAdd (a e : Nat) : Nat := min U8_MAX (e + a)

/-- `Add::add` for `PathMultiCost<u8>`: per-bucket saturating sum. -/
def PathMultiCost.add (x y : PathMultiCost) : PathMultiCost :=
  ⟨List.zipWith satAdd x.data y.data⟩

/-- `PathMultiCost::get_cost` from `path.rs`: the sparse form, one
`(value, MAX_DIMENSION - index)` pair per non-zero bucket, in array order
(most significant granularity first). -/
def PathMultiCost.get_cost (x : PathMultiCost) : List (Nat × Nat) :=
  (x.data.enum.filter (fun kv => kv.2 != 0)).map
    (fun kv => (kv.2, MAX_DIMENSION - kv.1))

/-- The Rust format string `"{} {}-letter mutation"` of `distance.rs`. -/
def mutationPhrase (v g : Nat) : String :=
  toString v ++ " " ++ toString g ++ "-letter mutation"

/-- `impl Display for PathMultiCost` from `distance.rs`: the empty sparse
form renders as `"0 mutation"`, otherwise the sparse entries are reversed
(`.rev()`), formatted, and joined with `" + "`. -/
def displayCost (x : PathMultiCost) : String :=
  match x.get_cost with
  | [] => "0 mutation"
  | l => String.intercalate " + " (l.reverse.map (fun p => mutationPhrase p.1 p.2))

/-- Validity of a `PathMultiCost<u8>` value: 20 buckets, each a `u8`.
Every vector built by the program's constructors satisfies this. -/
def WF (x : PathMultiCost) : Prop :=
  x.data.length = MAX_DIMENSION ∧ ∀ v ∈ x.data, v ≤ U8_MAX

instance (x : PathMultiCost) : Decidable (WF x) :=
  inferInstanceAs (Decidable (_ ∧ _))

/-- No bucket addition of `x.add y` saturates: every aligned pair of buckets
sums to at most `u8::max_value()`. -/
def NoSat (x y : PathMultiCost) : Prop :=
  ∀ p ∈ x.data.zip y.data, p.1 + p.2 ≤ U8_MAX

instance (x y : PathMultiCost) : Decidable (NoSat x y) :=
  inferInstanceAs (Decidable (∀ p ∈ _, _))

/-- Helper for `lev`: given `f = lev s` as a function, computes `lev (a :: s)`
by structural recursion on the second word. -/
def levCons (a : Char) (f : List Char → Nat) : List Char → Nat
  | [] => f [] + 1
  | b :: t =>
    min (f (b :: t) + 1)
      (min (levCons a f t + 1) (f t + (if a = b then 0 else 1)))

/-- The classic Levenshtein distance (unit insert/delete/substitute costs),
embedding the external `edit_distance` crate used by `word.rs`.  This is the
textbook Wagner–Fischer recurrence, set up as a nested structural recursion:
`lev (a :: s) (b :: t) = min (lev s (b :: t) + 1) (min (lev (a :: s) t + 1)
(lev s t + (if a = b then 0 else 1)))` holds definitionally. -/
def lev : List Char → List Char → Nat
  | [], t => t.length
  | a :: s, t => levCons a (lev s) t

/-- `path_cost` from `word.rs`: raw distance 0 gives `Bounded::min_value()`;
raw distance `n > 0` gives a single unit at dimension `min(n, MAX_DIMENSION) - 1`. -/
def path_cost (w1 w2 : List Char) : PathMultiCost :=
  match lev w1 w2 with
  | 0 => PathMultiCost.min_value
  | n + 1 => PathMultiCost.new 1 (min (n + 1) MAX_DIMENSION - 1)

/-- `edit_distance` from `word.rs`: the raw Levenshtein distance cast
`as u8` (truncation mod 256) placed at dimension 0. -/
def edit_distance (w1 w2 : List Char) : PathMultiCost :=
  PathMultiCost.new (lev w1 w2 % 256) 0

/-! ### Lemmas about the Levenshtein distance -/

theorem lev_nil_left (t : List Char) : lev [] t = t.length := rfl

theorem lev_nil_right (s : List Char) : lev s [] = s.length := by
  induction s with
  | nil => rfl
  | cons a s ih =>
    show levCons a (lev s) [] = s.length + 1
    simp [levCons, ih]

theorem lev_cons_cons (x y : Char) (s t : List Char) :
    lev (x :: s) (y :: t) =
      min (lev s (y :: t) + 1)
        (min (lev (x :: s) t + 1) (lev s t + (if x = y then 0 else 1))) := rfl

theorem lev_self (s : List Char) : lev s s = 0 := by
  induction s with
  | nil => rfl
  | cons a s ih => rw [lev_cons_cons, if_pos rfl, ih]; omega

theorem lev_le_sum (s t : List Char) : lev s t ≤ s.length + t.length := by
  induction s generalizing t with
  | nil => rw [lev_nil_left]; omega
  | cons a s ihs =>
    induction t with
    | nil => rw [lev_nil_right]; simp
    | cons b t iht =>
      rw [lev_cons_cons]
      have h1 := ihs (b :: t)
      have h2 := ihs t
      simp only [List.length_cons] at *
      omega

theorem length_le_lev_left (s t : List Char) : s.length ≤ lev s t + t.length := by
  induction s generalizing t with
  | nil => simp
  | cons a s ihs =>
    induction t with
    | nil => rw [lev_nil_right]; omega
    | cons b t iht =>
      rw [lev_cons_cons]
      have h1 := ihs (b :: t)
      have h2 := ihs t
      simp only [List.length_cons] at *
      omega

theorem length_le_lev_right (s t : List Char) : t.length ≤ lev s t + s.length := by
  induction s generalizing t with
  | nil => simp [lev_nil_left]
  | cons a s ihs =>
    induction t with
    | nil => simp
    | cons b t iht =>
      rw [lev_cons_cons]
      have h1 := ihs (b :: t)
      have h2 := ihs t
      simp only [List.length_cons] at *
      omega

/-- The Levenshtein distance satisfies the triangle inequality. -/
theorem lev_triangle (a b c : List Char) : lev a c ≤ lev a b + lev b c := by
  generalize hn : a.length + b.length + c.length = n
  induction n using Nat.strong_induction_on generalizing a b c with
  | _ n ih =>
    subst hn
    match a, b, c with
    | a, [], c =>
      rw [lev_nil_right, lev_nil_left]
      exact lev_le_sum a c
    | [], y :: b', c =>
      rw [lev_nil_left]
      have := length_le_lev_right (y :: b') c
      rw [lev_nil_left]
      omega
    | x :: a', y :: b', [] =>
      rw [lev_nil_right, lev_nil_right]
      have := length_le_lev_left (x :: a') (y :: b')
      omega
    | x :: a', y :: b', z :: c' =>
      have ih1 : lev a' (z :: c') ≤ lev a' (y :: b') + lev (y :: b') (z :: c') :=
        ih _ (by simp only [List.length_cons]; omega) _ _ _ rfl
      have ih2 : lev (x :: a') c' ≤ lev (x :: a') (y :: b') + lev (y :: b') c' :=
        ih _ (by simp only [List.length_cons]; omega) _ _ _ rfl
      have ih3 : lev (x :: a') (z :: c') ≤ lev (x :: a') b' + lev b' (z :: c') :=
        ih _ (by simp only [List.length_cons]; omega) _ _ _ rfl
      have ih4 : lev (x :: a') c' ≤ lev (x :: a') b' + lev b' c' :=
        ih _ (by simp only [List.length_cons]; omega) _ _ _ rfl
      have ih5 : lev a' (z :: c') ≤ lev a' b' + lev b' (z :: c') :=
        ih _ (by simp only [List.length_cons]; omega) _ _ _ rfl
      have ih6 : lev a' c' ≤ lev a' b' + lev b' c' :=
        ih _ (by simp only [List.length_cons]; omega) _ _ _ rfl
      have eab := lev_cons_cons x y a' b'
      have ebc := lev_cons_cons y z b' c'
      have eac := lev_cons_cons x z a' c'
      have hc : (if x = z then (0 : Nat) else 1) ≤
          (if x = y then (0 : Nat) else 1) + (if y = z then (0 : Nat) else 1) := by
        by_cases hxy : x = y
        · subst hxy
          by_cases hyz : x = z <;> simp [hyz]
        · by_cases hyz : y = z
          · subst hyz
            simp [hxy]
          · by_cases hxz : x = z <;> simp [hxz, hxy, hyz]
      omega

theorem lev_replicate_single (n : Nat) (x : Char) :
    lev (List.replicate (n + 1) x) [x] = n := by
  have h1 := length_le_lev_left (List.replicate n x) [x]
  rw [List.replicate_succ, lev_cons_cons, if_pos rfl, lev_nil_right, lev_nil_right]
  simp only [List.length_replicate, List.length_cons, List.length_nil] at *
  omega

/-! ### Lemmas about the cost-vector order and operations -/

theorem cmpList_cons_cons (x y : Nat) (xs ys : List Nat) :
    cmpList (x :: xs) (y :: ys) =
      match compare x y with
      | Ordering.eq => cmpList xs ys
      | o => o := rfl

theorem cmpList_single (u w : Nat) : cmpList [u] [w] = compare u w := by
  rw [cmpList_cons_cons]
  cases compare u w <;> rfl

theorem cmpList_cons_zero (l1 l2 : List Nat) :
    cmpList (0 :: l1) (0 :: l2) = cmpList l1 l2 := rfl

theorem cmpList_rep_append (n u w : Nat) :
    cmpList (List.replicate n 0 ++ [u]) (List.replicate n 0 ++ [w]) = compare u w := by
  induction n with
  | zero => exact cmpList_single u w
  | succ n ih =>
    rw [List.replicate_succ, List.cons_append, List.cons_append, cmpList_cons_zero]
    exact ih

theorem cmp_new0 (u w : Nat) :
    PathMultiCost.cmp (PathMultiCost.new u 0) (PathMultiCost.new w 0) = compare u w :=
  cmpList_rep_append (MAX_DIMENSION - 1) u w

theorem le_of_lt_pmc (x y : PathMultiCost) (h : PathMultiCost.lt x y) :
    PathMultiCost.le x y := by
  unfold PathMultiCost.le
  unfold PathMultiCost.lt at h
  rw [h]
  simp

theorem new0_lt_new_dim (v d : Nat) (h1 : 1 ≤ d) (h2 : d ≤ MAX_DIMENSION - 1) :
    PathMultiCost.lt (PathMultiCost.new v 0) (PathMultiCost.new 1 d) := by
  unfold MAX_DIMENSION at h2
  interval_cases d <;> exact rfl

theorem zipWith_satAdd_rep0_append (n u w : Nat) :
    List.zipWith satAdd (List.replicate n 0 ++ [u]) (List.replicate n 0 ++ [w]) =
      List.replicate n 0 ++ [satAdd u w] := by
  induction n with
  | zero => rfl
  | succ n ih =>
    rw [List.replicate_succ, List.cons_append, List.cons_append, List.zipWith_cons_cons, ih]
    rfl

theorem add_new0 (u w : Nat) :
    (PathMultiCost.new u 0).add (PathMultiCost.new w 0) =
      PathMultiCost.new (min U8_MAX (w + u)) 0 :=
  congrArg PathMultiCost.mk (zipWith_satAdd_rep0_append (MAX_DIMENSION - 1) u w)

theorem zipWith_satAdd_rep0_right (l : List Nat) :
    ∀ n, l.length = n → (∀ v ∈ l, v ≤ U8_MAX) →
      List.zipWith satAdd l (List.replicate n 0) = l := by
  induction l with
  | nil => intro n _ _; simp
  | cons a t ih =>
    intro n hl hv
    cases n with
    | zero => simp at hl
    | succ n =>
      rw [List.replicate_succ, List.zipWith_cons_cons,
        ih n (by simpa using hl) (fun v hvm => hv v (List.mem_cons_of_mem a hvm))]
      have ha : a ≤ U8_MAX := hv a (List.mem_cons_self a t)
      have : satAdd a 0 = a := by unfold satAdd; omega
      rw [this]

theorem zipWith_satAdd_comm (l1 : List Nat) :
    ∀ l2, List.zipWith satAdd l1 l2 = List.zipWith satAdd l2 l1 := by
  induction l1 with
  | nil => intro l2; cases l2 <;> rfl
  | cons a t ih =>
    intro l2
    cases l2 with
    | nil => rfl
    | cons b t2 =>
      rw [List.zipWith_cons_cons, List.zipWith_cons_cons, ih]
      have : satAdd a b = satAdd b a := by unfold satAdd; omega
      rw [this]

theorem add_comm_pmc (x y : PathMultiCost) : x.add y = y.add x :=
  congrArg PathMultiCost.mk (zipWith_satAdd_comm x.data y.data)

theorem zero_data : PathMultiCost.zero.data = List.replicate MAX_DIMENSION 0 := rfl

/-- Monotonicity of the per-bucket saturating sum with respect to the
lexicographic walk, valid as long as no compared bucket addition saturates. -/
theorem cmpList_zipWith_mono (l1 : List Nat) :
    ∀ (l2 l3 : List Nat),
      (∀ p ∈ l1.zip l3, p.1 + p.2 ≤ U8_MAX) →
      (∀ p ∈ l2.zip l3, p.1 + p.2 ≤ U8_MAX) →
      cmpList l1 l2 ≠ Ordering.gt →
      cmpList (List.zipWith satAdd l1 l3) (List.zipWith satAdd l2 l3) ≠ Ordering.gt := by
  induction l1 with
  | nil =>
    intro l2 l3 _ _ _
    simp [cmpList]
  | cons a t1 ih =>
    intro l2 l3 h13 h23 h12
    cases l2 with
    | nil => cases l3 <;> simp [cmpList]
    | cons b t2 =>
      cases l3 with
      | nil => simp [cmpList]
      | cons c t3 =>
        have hac : a + c ≤ U8_MAX := h13 (a, c) (by simp)
        have hbc : b + c ≤ U8_MAX := h23 (b, c) (by simp)
        have ea : satAdd a c = c + a := by unfold satAdd; omega
        have eb : satAdd b c = c + b := by unfold satAdd; omega
        rw [List.zipWith_cons_cons, List.zipWith_cons_cons, cmpList_cons_cons]
        rw [cmpList_cons_cons] at h12
        cases hab : compare a b with
        | lt =>
          have : compare (satAdd a c) (satAdd b c) = Ordering.lt := by
            rw [ea, eb]
            exact Nat.compare_eq_lt.mpr (by have := Nat.compare_eq_lt.mp hab; omega)
          rw [this]
          simp
        | eq =>
          have hab' : a = b := Nat.compare_eq_eq.mp hab
          subst hab'
          rw [hab] at h12
          have : compare (satAdd a c) (satAdd a c) = Ordering.eq :=
            Nat.compare_eq_eq.mpr rfl
          rw [this]
          exact ih t2 t3
            (fun p hp => h13 p (List.mem_cons_of_mem (a, c) hp))
            (fun p hp => h23 p (List.mem_cons_of_mem (a, c) hp)) h12
        | gt =>
          rw [hab] at h12
          exact absurd rfl h12

/-! ### Index lemmas for `PathMultiCost.new` -/

theorem new_index (d : Nat) (hd : d < USIZE_MOD) :
    min (MAX_DIMENSION - 1) (wrapSub (MAX_DIMENSION - 1) d) =
      if d < MAX_DIMENSION then MAX_DIMENSION - 1 - d else MAX_DIMENSION - 1 := by
  unfold wrapSub MAX_DIMENSION USIZE_MOD at *
  split <;> omega

theorem getD_set_self (l : List Nat) : ∀ (i v : Nat), i < l.length →
    (l.set i v).getD i 0 = v := by
  induction l with
  | nil => intro i v h; simp at h
  | cons a t ih =>
    intro i v h
    cases i with
    | zero => rfl
    | succ i => simpa using ih i v (by simpa using h)

theorem getD_set_ne (l : List Nat) : ∀ (i j v : Nat), i ≠ j →
    (l.set i v).getD j 0 = l.getD j 0 := by
  induction l with
  | nil => intro i j v _; simp
  | cons a t ih =>
    intro i j v h
    cases i with
    | zero =>
      cases j with
      | zero => exact absurd rfl h
      | succ j => simp
    | succ i =>
      cases j with
      | zero => simp
      | succ j => simpa using ih i j v (by omega)

theorem getD_replicate0 (n : Nat) : ∀ k, (List.replicate n (0 : Nat)).getD k 0 = 0 := by
  induction n with
  | zero => intro k; rfl
  | succ n ih =>
    intro k
    cases k with
    | zero => rfl
    | succ k =>
      rw [List.replicate_succ]
      exact ih k

/-- The bucket of a cost vector at spec index `i` (`i = 0` least significant,
1-letter granularity; `i = MAX_DIMENSION - 1` most significant), i.e. the
array entry at `MAX_DIMENSION - 1 - i`. -/
def bucketGet (x : PathMultiCost) (i : Nat) : Nat :=
  x.data.getD (MAX_DIMENSION - 1 - i) 0

theorem get_cost_new0 (v : Nat) (hv : v ≠ 0) :
    (PathMultiCost.new v 0).get_cost = [(v, 1)] := by
  have hb : (v != 0) = true := by simpa using hv
  show ((List.replicate 19 0 ++ [v]).enum.filter (fun (kv : Nat × Nat) => kv.2 != 0)).map
    (fun (kv : Nat × Nat) => (kv.2, MAX_DIMENSION - kv.1)) = [(v, 1)]
  simp [List.enum, List.enumFrom, List.replicate, List.filter, hb, MAX_DIMENSION]

/-! ### Claim C2: monotonicity of addition with respect to the order -/

/-- C2 counterexample: the claimed monotonicity (`a ≤ b` implies
`a + c ≤ b + c`) fails on the code for concrete `u8` cost vectors once a
bucket addition saturates: with `a = [1,5,0,…]`, `b = [2,0,…]`,
`c = [254,0,…]` (most significant bucket first) we have `a ≤ b` but
`a + c = [255,5,0,…] > [255,0,…] = b + c`. -/
theorem c2_counterexample :
    PathMultiCost.le ⟨[1, 5, 0, 0, 0, 0, 0, 0, 0, 0, 0, 0, 0, 0, 0, 0, 0, 0, 0, 0]⟩
        ⟨[2, 0, 0, 0, 0, 0, 0, 0, 0, 0, 0, 0, 0, 0, 0, 0, 0, 0, 0, 0]⟩ ∧
      ¬ PathMultiCost.le
        (PathMultiCost.add ⟨[1, 5, 0, 0, 0, 0, 0, 0, 0, 0, 0, 0, 0, 0, 0, 0, 0, 0, 0, 0]⟩
          ⟨[254, 0, 0, 0, 0, 0, 0, 0, 0, 0, 0, 0, 0, 0, 0, 0, 0, 0, 0, 0]⟩)
        (PathMultiCost.add ⟨[2, 0, 0, 0, 0, 0, 0, 0, 0, 0, 0, 0, 0, 0, 0, 0, 0, 0, 0, 0]⟩
          ⟨[254, 0, 0, 0, 0, 0, 0, 0, 0, 0, 0, 0, 0, 0, 0, 0, 0, 0, 0, 0]⟩) := by
  decide

/-- C2 (amended): addition of cost vectors is monotone with respect to the
lexicographic order on both operands, provided no per-bucket addition
saturates at the `u8` maximum: if `a ≤ b`, `NoSat a c` and `NoSat b c`,
then `a + c ≤ b + c` and `c + a ≤ c + b`. -/
theorem c2_add_monotone_amended (a b c : PathMultiCost)
    (hac : NoSat a c) (hbc : NoSat b c) (hab : PathMultiCost.le a b) :
    PathMultiCost.le (a.add c) (b.add c) ∧ PathMultiCost.le (c.add a) (c.add b) := by
  have h1 : PathMultiCost.le (a.add c) (b.add c) :=
    cmpList_zipWith_mono a.data b.data c.data hac hbc hab
  refine ⟨h1, ?_⟩
  rw [add_comm_pmc c a, add_comm_pmc c b]
  exact h1

/-- Witness for C2 (amended) at `a = new 1 0`, `b = new 2 0`, `c = new 3 1`. -/
theorem c2_add_monotone_amended_witness :
    PathMultiCost.le
        ((PathMultiCost.new 1 0).add (PathMultiCost.new 3 1))
        ((PathMultiCost.new 2 0).add (PathMultiCost.new 3 1)) ∧
      PathMultiCost.le
        ((PathMultiCost.new 3 1).add (PathMultiCost.new 1 0))
        ((PathMultiCost.new 3 1).add (PathMultiCost.new 2 0)) :=
  c2_add_monotone_amended (PathMultiCost.new 1 0) (PathMultiCost.new 2 0)
    (PathMultiCost.new 3 1) (by decide) (by decide) (by decide)

/-! ### Claim C3: the value returned by `edit_distance` -/

/-- C3 counterexample: at raw Levenshtein distance 20 (e.g. `""` against 20
letters `a`) the code stores 20 in bucket 0, not the claimed clamp `D-1 = 19`. -/
theorem c3_counterexample :
    edit_distance [] (List.replicate 20 'a') ≠ PathMultiCost.new 19 0 ∧
      edit_distance [] (List.replicate 20 'a') = PathMultiCost.new 20 0 := by
  decide

/-- C3 (amended): `edit_distance w1 w2` has bucket 0 (1-letter granularity) as
its only possibly non-zero bucket, and that bucket holds the raw Levenshtein
distance reduced mod 256 (the `as u8` cast) — with no clamping at `D-1`:
the sparse form is empty when `lev w1 w2 % 256 = 0` and exactly
`[(lev w1 w2 % 256, 1)]` otherwise. -/
theorem c3_edit_distance_bucket0_amended (w1 w2 : List Char) :
    (edit_distance w1 w2).get_cost =
      if lev w1 w2 % 256 = 0 then [] else [(lev w1 w2 % 256, 1)] := by
  unfold edit_distance
  by_cases h : lev w1 w2 % 256 = 0
  · rw [if_pos h, h]
    decide
  · rw [if_neg h]
    exact get_cost_new0 _ h

/-! ### Claim C4: triangle inequality for `edit_distance` -/

/-- C4 counterexample: the `as u8` truncation breaks the triangle inequality
for words of length ≥ 256: with `a` = 256 letters `a`, `b = ""`, `c = "a"`,
`edit_distance a b = 0 (mod 256)` and `edit_distance b c = 1`, but
`edit_distance a c = 255`, so the sum `1` is strictly below `255`. -/
theorem c4_counterexample :
    ¬ PathMultiCost.le (edit_distance (List.replicate 256 'a') ['a'])
      ((edit_distance (List.replicate 256 'a') []).add (edit_distance [] ['a'])) := by
  have h1 : lev (List.replicate 256 'a') ['a'] = 255 := lev_replicate_single 255 'a'
  have h2 : lev (List.replicate 256 'a') [] = 256 := by
    rw [lev_nil_right, List.length_replicate]
  have h3 : lev [] ['a'] = 1 := rfl
  unfold edit_distance
  rw [h1, h2, h3]
  decide

/-- C4 (amended): `edit_distance(a,b) + edit_distance(b,c) ≥ edit_distance(a,c)`
holds whenever none of the three raw Levenshtein distances exceeds the `u8`
range (so the `as u8` cast is value-preserving); without that bound the
claim fails (see the counterexample). -/
theorem c4_triangle_amended (a b c : List Char)
    (h1 : lev a b ≤ U8_MAX) (h2 : lev b c ≤ U8_MAX) (h3 : lev a c ≤ U8_MAX) :
    PathMultiCost.le (edit_distance a c)
      ((edit_distance a b).add (edit_distance b c)) := by
  have htri := lev_triangle a b c
  unfold edit_distance
  unfold U8_MAX at h1 h2 h3
  rw [Nat.mod_eq_of_lt (by omega), Nat.mod_eq_of_lt (by omega),
    Nat.mod_eq_of_lt (by omega), add_new0]
  unfold PathMultiCost.le
  rw [cmp_new0]
  intro hgt
  have := Nat.compare_eq_gt.mp hgt
  unfold U8_MAX at this
  omega

/-- Witness for C4 (amended) at `a = "ab"`, `b = "b"`, `c = ""`. -/
theorem c4_triangle_amended_witness :
    PathMultiCost.le (edit_distance ['a', 'b'] [])
      ((edit_distance ['a', 'b'] ['b']).add (edit_distance ['b'] [])) :=
  c4_triangle_amended ['a', 'b'] ['b'] [] (by decide) (by decide) (by decide)

/-! ### Claim C5: admissibility of the heuristic -/

/-- C5: for every pair of words, the step cost is at least the heuristic
cost: `edit_distance w1 w2 ≤ path_cost w1 w2` in the lexicographic order
(equality at raw distance 0 and 1, strict above). -/
theorem c5_admissible (w1 w2 : List Char) :
    PathMultiCost.le (edit_distance w1 w2) (path_cost w1 w2) := by
  unfold edit_distance path_cost
  cases hn : lev w1 w2 with
  | zero => decide
  | succ n =>
    cases n with
    | zero => decide
    | succ m =>
      exact le_of_lt_pmc _ _
        (new0_lt_new_dim ((m + 1 + 1) % 256) (min (m + 1 + 1) MAX_DIMENSION - 1)
          (by unfold MAX_DIMENSION; omega) (by unfold MAX_DIMENSION; omega))

/-! ### Claim C6: totality and bucket placement of `new` -/

/-- C6 counterexample: for `bucket_index = 20 ≥ D` the claim predicts the
value at the clamped bucket `19` (i.e. `new 5 19`); under the wrapping
`usize` semantics the code instead places it at bucket 0 (`new 5 0`) —
and under overflow-checked builds the subtraction `MAX_DIMENSION - 1 -
dimension` panics. -/
theorem c6_counterexample :
    PathMultiCost.new 5 20 ≠ PathMultiCost.new 5 19 ∧
      PathMultiCost.new 5 20 = PathMultiCost.new 5 0 := by
  decide

/-- C6 (amended): under release (wrapping) `usize` semantics `new` is total;
for `dimension < D` the value lands at that bucket and all other buckets are
zero, but for `D ≤ dimension < 2^64` the value lands at bucket 0 (least
significant), not at the clamp `D-1`. -/
theorem c6_new_bucket_amended (v d i : Nat) (hd : d < USIZE_MOD) (hi : i < MAX_DIMENSION) :
    bucketGet (PathMultiCost.new v d) i =
      if i = (if d < MAX_DIMENSION then d else 0) then v else 0 := by
  unfold bucketGet PathMultiCost.new
  show ((List.replicate MAX_DIMENSION 0).set
      (min (MAX_DIMENSION - 1) (wrapSub (MAX_DIMENSION - 1) d)) v).getD
      (MAX_DIMENSION - 1 - i) 0 = _
  rw [new_index d hd]
  by_cases hdm : d < MAX_DIMENSION
  · rw [show (if d < MAX_DIMENSION then MAX_DIMENSION - 1 - d else MAX_DIMENSION - 1) =
        MAX_DIMENSION - 1 - d from if_pos hdm,
      show (if d < MAX_DIMENSION then d else 0) = d from if_pos hdm]
    by_cases hid : i = d
    · subst hid
      rw [if_pos rfl]
      exact getD_set_self _ _ v (by
        rw [List.length_replicate]; unfold MAX_DIMENSION at *; omega)
    · rw [if_neg hid]
      rw [getD_set_ne _ _ _ v (by unfold MAX_DIMENSION at *; omega)]
      exact getD_replicate0 _ _
  · rw [show (if d < MAX_DIMENSION then MAX_DIMENSION - 1 - d else MAX_DIMENSION - 1) =
        MAX_DIMENSION - 1 from if_neg hdm,
      show (if d < MAX_DIMENSION then d else 0) = 0 from if_neg hdm]
    by_cases hi0 : i = 0
    · subst hi0
      rw [if_pos rfl]
      exact getD_set_self _ _ v (by
        rw [List.length_replicate]; unfold MAX_DIMENSION at *; omega)
    · rw [if_neg hi0]
      rw [getD_set_ne _ _ _ v (by unfold MAX_DIMENSION at *; omega)]
      exact getD_replicate0 _ _

/-- Witness for C6 (amended): `new 7 25` places 7 at bucket 0, and
`new 7 3` places 7 at bucket 3. -/
theorem c6_new_bucket_amended_witness :
    bucketGet (PathMultiCost.new 7 25) 0 =
        (if (0 : Nat) = (if 25 < MAX_DIMENSION then 25 else 0) then 7 else 0) ∧
      bucketGet (PathMultiCost.new 7 3) 3 =
        (if (3 : Nat) = (if 3 < MAX_DIMENSION then 3 else 0) then 7 else 0) :=
  ⟨c6_new_bucket_amended 7 25 0 (by decide) (by decide),
    c6_new_bucket_amended 7 3 3 (by decide) (by decide)⟩

/-! ### Claim C8: deliberate triangle-inequality violation of `path_cost` -/

/-- C8: the step cost violates the triangle inequality on the spec's own
example: `path_cost "adrien" "adri" + path_cost "adri" "adr" <
path_cost "adrien" "adr"` in the lexicographic order. -/
theorem c8_nonmetric_bias :
    PathMultiCost.lt
      ((path_cost "adrien".toList "adri".toList).add
        (path_cost "adri".toList "adr".toList))
      (path_cost "adrien".toList "adr".toList) := by
  decide

/-! ### Claim C10: zero-distance step cost is the additive identity -/

/-- C10: when the raw Levenshtein distance is 0 (in particular for a word
with itself), `path_cost` returns `min_value`, which equals the all-zero
vector `zero` (the `u8` minimum is 0), and adding it to any well-formed
accumulated cost on either side changes nothing. -/
theorem c10_zero_step_identity (w1 w2 : List Char) (c : PathMultiCost)
    (h0 : lev w1 w2 = 0) (hc : WF c) :
    path_cost w1 w2 = PathMultiCost.min_value ∧
      PathMultiCost.min_value = PathMultiCost.zero ∧
      c.add (path_cost w1 w2) = c ∧ (path_cost w1 w2).add c = c := by
  have hpz : path_cost w1 w2 = PathMultiCost.min_value := by
    unfold path_cost
    rw [h0]
  have hmz : PathMultiCost.min_value = PathMultiCost.zero := rfl
  have hright : c.add (path_cost w1 w2) = c := by
    rw [hpz, hmz]
    show PathMultiCost.mk (List.zipWith satAdd c.data (List.replicate MAX_DIMENSION 0)) = c
    rw [zipWith_satAdd_rep0_right c.data MAX_DIMENSION hc.1 hc.2]
  refine ⟨hpz, hmz, hright, ?_⟩
  rw [show (path_cost w1 w2).add c = c.add (path_cost w1 w2) from
    add_comm_pmc _ c]
  exact hright

/-! ### Claim C7: rendering of the cost vector -/

/-- Recursive form of the traversal behind `get_cost`, with explicit start
index `k`: the `(value, MAX_DIMENSION - index)` pairs of the non-zero entries
of `l` regarded as living at array indices `k, k+1, …`. -/
def gcAux : List Nat → Nat → List (Nat × Nat)
  | [], _ => []
  | v :: rest, k =>
    (if v = 0 then [] else [(v, MAX_DIMENSION - k)]) ++ gcAux rest (k + 1)

theorem enum_filter_map_eq_gcAux (l : List Nat) : ∀ k,
    ((List.enumFrom k l).filter (fun kv => kv.2 != 0)).map
      (fun kv => (kv.2, MAX_DIMENSION - kv.1)) = gcAux l k := by
  induction l with
  | nil => intro k; rfl
  | cons v rest ih =>
    intro k
    show (((k, v) :: List.enumFrom (k + 1) rest).filter (fun kv => kv.2 != 0)).map
      (fun kv => (kv.2, MAX_DIMENSION - kv.1)) = _
    by_cases hv : v = 0
    · subst hv
      rw [gcAux]
      simpa using ih (k + 1)
    · have hb : (v != 0) = true := by simpa using hv
      rw [gcAux, List.filter_cons]
      simp only [hb, if_true, List.map_cons, ih (k + 1), if_neg hv]
      rfl

theorem get_cost_eq_gcAux (x : PathMultiCost) : x.get_cost = gcAux x.data 0 :=
  enum_filter_map_eq_gcAux x.data 0

/-- Granularity-ascending sparse form: the non-zero entries of a bucket list
paired with granularities `g, g+1, …` in order. -/
def ascAux : List Nat → Nat → List (Nat × Nat)
  | [], _ => []
  | v :: rest, g => (if v = 0 then [] else [(v, g)]) ++ ascAux rest (g + 1)

theorem ascAux_append (l1 l2 : List Nat) : ∀ g,
    ascAux (l1 ++ l2) g = ascAux l1 g ++ ascAux l2 (g + l1.length) := by
  induction l1 with
  | nil => intro g; simp [ascAux]
  | cons v rest ih =>
    intro g
    rw [List.cons_append, ascAux, ascAux, ih (g + 1), List.append_assoc]
    rw [show g + 1 + rest.length = g + (v :: rest).length from by
      simp [List.length_cons]; omega]

theorem gcAux_reverse (l : List Nat) : ∀ k, k + l.length = MAX_DIMENSION →
    (gcAux l k).reverse = ascAux l.reverse 1 := by
  induction l with
  | nil => intro k h; rfl
  | cons v rest ih =>
    intro k h
    rw [gcAux, List.reverse_append, List.reverse_cons, ascAux_append,
      ih (k + 1) (by simp only [List.length_cons] at h; omega)]
    congr 1
    rw [List.length_reverse]
    have hk : MAX_DIMENSION - k = rest.length + 1 := by
      simp only [List.length_cons] at h
      unfold MAX_DIMENSION at *
      omega
    by_cases hv : v = 0
    · simp [ascAux, hv]
    · simp only [ascAux, if_neg hv, hk, List.reverse_cons, List.reverse_nil,
        List.nil_append, List.append_nil]
      rw [Nat.add_comm]

/-- The amended reporting contract, stated independently of `get_cost` and
`Display`: non-zero buckets with granularity ascending (1-letter first), each
rendered as "count granularity-letter mutation" and joined by " + "; an
all-zero vector renders as "0 mutation". -/
def renderSpecAsc (x : PathMultiCost) : String :=
  match ascAux x.data.reverse 1 with
  | [] => "0 mutation"
  | l => String.intercalate " + " (l.map (fun p => mutationPhrase p.1 p.2))

theorem displayCost_eq_ite (x : PathMultiCost) :
    displayCost x =
      if x.get_cost.reverse = [] then "0 mutation"
      else String.intercalate " + "
        (x.get_cost.reverse.map (fun p => mutationPhrase p.1 p.2)) := by
  unfold displayCost
  cases hgc : x.get_cost with
  | nil => rfl
  | cons p l =>
    rw [if_neg (by simp)]

theorem renderSpecAsc_eq_ite (x : PathMultiCost) :
    renderSpecAsc x =
      if ascAux x.data.reverse 1 = [] then "0 mutation"
      else String.intercalate " + "
        ((ascAux x.data.reverse 1).map (fun p => mutationPhrase p.1 p.2)) := by
  unfold renderSpecAsc
  cases hasc : ascAux x.data.reverse 1 with
  | nil => rfl
  | cons p l =>
    rw [if_neg (by simp)]

/-- C7 counterexample: a vector with one 2-letter bucket and one 1-letter
bucket renders with the 1-letter entry first, not as the claimed
"1 2-letter mutation + 1 1-letter mutation". -/
theorem c7_counterexample :
    displayCost ((PathMultiCost.new 1 1).add (PathMultiCost.new 1 0)) =
        "1 1-letter mutation + 1 2-letter mutation" ∧
      displayCost ((PathMultiCost.new 1 1).add (PathMultiCost.new 1 0)) ≠
        "1 2-letter mutation + 1 1-letter mutation" := by
  decide

/-- C7 (amended): the rendered form lists the non-zero buckets from least
significant granularity first (1-letter) to most significant last, each as
"count granularity-letter mutation" joined by " + ", and the all-zero vector
renders as "0 mutation" — i.e. `displayCost` agrees with the
granularity-ascending rendering `renderSpecAsc`. -/
theorem c7_display_amended (x : PathMultiCost) (h : x.data.length = MAX_DIMENSION) :
    displayCost x = renderSpecAsc x := by
  have hrev : x.get_cost.reverse = ascAux x.data.reverse 1 := by
    rw [get_cost_eq_gcAux]
    exact gcAux_reverse x.data 0 (by omega)
  rw [displayCost_eq_ite, renderSpecAsc_eq_ite, hrev]

/-- Witness for C7 (amended) at the vector `new 2 3`. -/
theorem c7_display_amended_witness :
    (PathMultiCost.new 2 3).data.length = MAX_DIMENSION ∧
      displayCost (PathMultiCost.new 2 3) = renderSpecAsc (PathMultiCost.new 2 3) :=
  ⟨by decide, c7_display_amended (PathMultiCost.new 2 3) (by decide)⟩

/-- Witness for C10 at `w1 = w2 = "ab"`, `c = new 3 2`. -/
theorem c10_zero_step_identity_witness :
    path_cost ['a', 'b'] ['a', 'b'] = PathMultiCost.min_value ∧
      PathMultiCost.min_value = PathMultiCost.zero ∧
      (PathMultiCost.new 3 2).add (path_cost ['a', 'b'] ['a', 'b']) =
        PathMultiCost.new 3 2 ∧
      (path_cost ['a', 'b'] ['a', 'b']).add (PathMultiCost.new 3 2) =
        PathMultiCost.new 3 2 :=
  c10_zero_step_identity ['a', 'b'] ['a', 'b'] (PathMultiCost.new 3 2)
    (by decide) (by decide)

/-! ### Spec-modelled search algorithms (claims C1 and C9)

The four graph-search algorithms dispatched by `find_shortest_path` live in
the external `pathfinding` crate, which is not part of this repository's
sources.  They are modelled here from the spec (§4.4): open entries carry the
explored path (head = current node) with its accumulated cost, selection is
by the priority `g + h` with ties broken first-seen-first, the goal is tested
on the selected node, and each run reaches a terminal found/not-found state;
a fuel argument makes the synchronous run-to-completion loops structurally
total. -/

/-- A word (graph node): a case-normalised string as a character list. -/
abbrev Node := List Char

/-- An open-list entry: the path explored so far, in reverse (head is the
current node), with its accumulated cost. -/
abbrev Entry := List Node × PathMultiCost

/-- Modelled from the spec: the priority of an entry, accumulated cost plus
heuristic of its current node. -/
def fvalue (h : Node → PathMultiCost) (e : Entry) : PathMultiCost :=
  match e.1 with
  | [] => e.2
  | n :: _ => e.2.add (h n)

/-- Modelled from the spec: select the minimum-priority element of a list,
ties broken in favour of the earliest entry (first-seen-first-expanded),
returning it together with the remaining elements. -/
def selectMin (key : Entry → PathMultiCost) :
    List Entry → Option (Entry × List Entry)
  | [] => none
  | x :: xs =>
    match selectMin key xs with
    | none => some (x, [])
    | some (y, rest) =>
      if PathMultiCost.cmp (key y) (key x) = Ordering.lt then some (y, x :: rest)
      else some (x, xs)

/-- Modelled from the spec: the best-known accumulated cost per node. -/
def lookupCost (n : Node) : List (Node × PathMultiCost) → Option PathMultiCost
  | [] => none
  | (m, c) :: rest => if m == n then some c else lookupCost n rest

/-- Modelled from the spec: best-first search with heuristic (the crate's
`astar`; with the heuristic fixed at zero it is uniform-cost search, the
crate's `dijkstra`): select the open entry with least `g + h`, finish when
its node is a goal, otherwise expand its successors, skipping those that do
not improve the best-known cost of their node. -/
def astarLoop (succ : Node → List (Node × PathMultiCost))
    (h : Node → PathMultiCost) (goal : Node → Bool) :
    Nat → List Entry → List (Node × PathMultiCost) →
    Option (List Node × PathMultiCost)
  | 0, _, _ => none
  | fuel + 1, openList, best =>
    match selectMin (fvalue h) openList with
    | none => none
    | some (e, rest) =>
      match e.1 with
      | [] => none
      | n :: _ =>
        if goal n then some (e.1.reverse, e.2)
        else
          let exps := (succ n).filterMap (fun sc =>
            let g2 := e.2.add sc.2
            match lookupCost sc.1 best with
            | some gOld =>
              if PathMultiCost.cmp g2 gOld = Ordering.lt then some (sc.1 :: e.1, g2)
              else none
            | none => some (sc.1 :: e.1, g2))
          let best2 := exps.foldl (fun acc pe =>
            match pe.1 with
            | [] => acc
            | m :: _ => (m, pe.2) :: acc) best
          astarLoop succ h goal fuel (rest ++ exps) best2

/-- Terminal outcomes of one bounded depth-first round of `idastarLoop`. -/
inductive DfsOutcome where
  | found (p : List Node) (c : PathMultiCost)
  | cutoff (next : PathMultiCost)
  | exhausted

/-- Modelled from the spec: one cost-bounded depth-first round of
iterative-deepening best-first search; reports the found path, or the least
f-value exceeding the bound (used to raise the threshold), or exhaustion. -/
def idaDfs (succ : Node → List (Node × PathMultiCost))
    (h : Node → PathMultiCost) (goal : Node → Bool) :
    Nat → PathMultiCost → List Node → PathMultiCost → DfsOutcome
  | 0, _, _, _ => DfsOutcome.exhausted
  | fuel + 1, bound, path, g =>
    match path with
    | [] => DfsOutcome.exhausted
    | n :: _ =>
      let f := g.add (h n)
      if PathMultiCost.cmp bound f = Ordering.lt then DfsOutcome.cutoff f
      else if goal n then DfsOutcome.found path.reverse g
      else
        (succ n).foldl (fun acc sc =>
          match acc with
          | DfsOutcome.found p c => DfsOutcome.found p c
          | other =>
            match idaDfs succ h goal fuel bound (sc.1 :: path) (g.add sc.2) with
            | DfsOutcome.found p c => DfsOutcome.found p c
            | DfsOutcome.cutoff nxt =>
              match other with
              | DfsOutcome.cutoff prev =>
                DfsOutcome.cutoff
                  (if PathMultiCost.cmp nxt prev = Ordering.lt then nxt else prev)
              | _ => DfsOutcome.cutoff nxt
            | DfsOutcome.exhausted => other) DfsOutcome.exhausted

/-- Modelled from the spec: the outer threshold-raising loop of
iterative-deepening best-first search (the crate's `idastar`), starting with
the heuristic of the start node as the threshold. -/
def idastarLoop (succ : Node → List (Node × PathMultiCost))
    (h : Node → PathMultiCost) (goal : Node → Bool) :
    Nat → Nat → Node → PathMultiCost → Option (List Node × PathMultiCost)
  | 0, _, _, _ => none
  | rounds + 1, fuel, start, bound =>
    match idaDfs succ h goal fuel bound [start] PathMultiCost.zero with
    | DfsOutcome.found p c => some (p, c)
    | DfsOutcome.cutoff nxt => idastarLoop succ h goal rounds fuel start nxt
    | DfsOutcome.exhausted => none

/-- Modelled from the spec: fringe search (the crate's `fringe`) with a "now"
and a "later" generation list and a cost threshold raised in rounds. -/
def fringeLoop (succ : Node → List (Node × PathMultiCost))
    (h : Node → PathMultiCost) (goal : Node → Bool) :
    Nat → List Entry → List Entry → PathMultiCost →
    Option (List Node × PathMultiCost)
  | 0, _, _, _ => none
  | fuel + 1, now, later, bound =>
    match now with
    | [] =>
      match selectMin (fvalue h) later with
      | none => none
      | some (e, _) => fringeLoop succ h goal fuel later [] (fvalue h e)
    | e :: rest =>
      match e.1 with
      | [] => fringeLoop succ h goal fuel rest later bound
      | n :: _ =>
        if PathMultiCost.cmp bound (fvalue h e) = Ordering.lt then
          fringeLoop succ h goal fuel rest (later ++ [e]) bound
        else if goal n then some (e.1.reverse, e.2)
        else
          fringeLoop succ h goal fuel
            ((succ n).map (fun sc => (sc.1 :: e.1, e.2.add sc.2)) ++ rest)
            later bound

/-- `PathFindingAlgorithm` from `distance.rs`. -/
inductive PathFindingAlgorithm where
  | Astar
  | Fringe
  | Idastar
  | Dijkstra

/-- The fuel supplied to the modelled searches: a positive budget standing
for the spec's synchronous run to a terminal state. -/
def searchFuel (words : List Node) : Nat :=
  (words.length + 1) * (words.length + 1) * (U8_MAX + 1) + 1

/-- `find_shortest_path` from `distance.rs`: successors pair every candidate
with its `path_cost` from the current word, the heuristic is `edit_distance`
to the target, the goal test is equality with the target, and the selected
algorithm is dispatched on; the four algorithm bodies are modelled from the
spec (they live in the external `pathfinding` crate). -/
def find_shortest_path (start stop : Node) (words : List Node)
    (algorithm : PathFindingAlgorithm) : Option (List Node × PathMultiCost) :=
  let get_successors := fun (current_word : Node) =>
    words.map (fun successor => (successor, path_cost current_word successor))
  let heuristic := fun (word : Node) => edit_distance word stop
  let stop_condition := fun (word : Node) => word == stop
  match algorithm with
  | PathFindingAlgorithm.Astar =>
    astarLoop get_successors heuristic stop_condition (searchFuel words)
      [([start], PathMultiCost.zero)] [(start, PathMultiCost.zero)]
  | PathFindingAlgorithm.Idastar =>
    idastarLoop get_successors heuristic stop_condition (searchFuel words)
      (searchFuel words) start (heuristic start)
  | PathFindingAlgorithm.Fringe =>
    fringeLoop get_successors heuristic stop_condition (searchFuel words)
      [([start], PathMultiCost.zero)] [] (heuristic start)
  | PathFindingAlgorithm.Dijkstra =>
    astarLoop get_successors (fun _ => PathMultiCost.zero) stop_condition
      (searchFuel words) [([start], PathMultiCost.zero)] [(start, PathMultiCost.zero)]

theorem edit_distance_self (w : List Char) :
    edit_distance w w = PathMultiCost.zero := by
  unfold edit_distance
  rw [lev_self]
  rfl

theorem add_zero_zero :
    PathMultiCost.zero.add PathMultiCost.zero = PathMultiCost.zero := by
  decide

theorem cmp_zero_zero :
    PathMultiCost.zero.cmp PathMultiCost.zero = Ordering.eq := by
  decide

/-- C9: for every word, candidate list and algorithm, searching from a word
to itself succeeds immediately with the singleton path and the all-zero
cost. -/
theorem c9_identity (w : Node) (words : List Node) (alg : PathFindingAlgorithm) :
    find_shortest_path w w words alg = some ([w], PathMultiCost.zero) := by
  have hed : edit_distance w w = PathMultiCost.zero := edit_distance_self w
  cases alg with
  | Astar => simp [find_shortest_path, searchFuel, astarLoop, selectMin]
  | Dijkstra => simp [find_shortest_path, searchFuel, astarLoop, selectMin]
  | Idastar =>
    simp [find_shortest_path, searchFuel, idastarLoop, idaDfs, hed,
      add_zero_zero, cmp_zero_zero]
  | Fringe =>
    simp [find_shortest_path, searchFuel, fringeLoop, fvalue, hed,
      add_zero_zero, cmp_zero_zero]

end Typos
